import Mathlib

-- Shallow embedding of the chunked-upload session coordinator of the
-- IstartX upload server (src/server.js) and of its backend upload module
-- (src/modules/b2Upload.js).  Byte payloads are lists of naturals; the
-- JavaScript Map values (activeUploads, a session's chunks) are association
-- lists with JavaScript Map.set / Map.delete semantics; the local uploads
-- directory and the remote B2 bucket are association lists from paths and
-- keys to byte contents.  Remote operations (HeadObject probes, part
-- uploads) are parametrized by their outcomes, since the SDK is an opaque
-- collaborator that can fail.

namespace IstartX

/-- Byte payloads, one natural per byte. -/
abbrev Bytes := List Nat

section AssocList

variable {κ : Type} {α : Type} [DecidableEq κ]

/-- Lookup in an association list (JavaScript Map.get; also a successful
file read at a path). -/
def alookup (k : κ) : List (κ × α) → Option α
  | [] => none
  | p :: rest => if p.1 = k then some p.2 else alookup k rest

/-- Insert or overwrite (JavaScript Map.set: an existing key is updated in
place, a fresh key is appended; also a file write). -/
def aset (k : κ) (v : α) : List (κ × α) → List (κ × α)
  | [] => [(k, v)]
  | p :: rest => if p.1 = k then (k, v) :: rest else p :: aset k v rest

/-- Remove a key (JavaScript Map.delete; also fs.unlinkSync). -/
def aerase (k : κ) : List (κ × α) → List (κ × α)
  | [] => []
  | p :: rest => if p.1 = k then aerase k rest else p :: aerase k rest

theorem alookup_aset_self (k : κ) (v : α) : ∀ m : List (κ × α), alookup k (aset k v m) = some v := by
  intro m
  induction m with
  | nil => simp [aset, alookup]
  | cons p rest ih =>
    by_cases h : p.1 = k
    · simp [aset, h, alookup]
    · simp [aset, h, alookup, ih]

theorem alookup_aset_ne {k k' : κ} (h : k' ≠ k) (v : α) :
    ∀ m : List (κ × α), alookup k' (aset k v m) = alookup k' m := by
  have hk : ¬ k = k' := fun he => h he.symm
  intro m
  induction m with
  | nil => simp [aset, alookup, hk]
  | cons p rest ih =>
    by_cases hp : p.1 = k
    · subst hp
      simp [aset, alookup, hk]
    · simp [aset, hp, alookup, ih]

theorem aset_aset_same (k : κ) (v₁ v₂ : α) :
    ∀ m : List (κ × α), aset k v₂ (aset k v₁ m) = aset k v₂ m := by
  intro m
  induction m with
  | nil => simp [aset]
  | cons p rest ih =>
    by_cases h : p.1 = k
    · simp [aset, h]
    · simp [aset, h, ih]

theorem aset_append_of_not_mem (k : κ) (v : α) :
    ∀ m : List (κ × α), (∀ p ∈ m, p.1 ≠ k) → aset k v m = m ++ [(k, v)] := by
  intro m
  induction m with
  | nil => simp [aset]
  | cons p rest ih =>
    intro h
    have hp : p.1 ≠ k := h p (by simp)
    simp only [aset, if_neg hp, List.cons_append, List.cons.injEq, true_and]
    exact ih fun q hq => h q (by simp [hq])

theorem alookup_aerase_self (k : κ) : ∀ m : List (κ × α), alookup k (aerase k m) = none := by
  intro m
  induction m with
  | nil => simp [aerase, alookup]
  | cons p rest ih =>
    by_cases h : p.1 = k
    · simp [aerase, h, ih]
    · simp [aerase, h, alookup, ih]

theorem alookup_aerase_ne {k k' : κ} (h : k' ≠ k) :
    ∀ m : List (κ × α), alookup k' (aerase k m) = alookup k' m := by
  have hk : ¬ k = k' := fun he => h he.symm
  intro m
  induction m with
  | nil => simp [aerase]
  | cons p rest ih =>
    by_cases hp : p.1 = k
    · subst hp
      simp [aerase, alookup, hk, ih]
    · simp [aerase, hp, alookup, ih]

theorem alookup_aerase_none {k k' : κ} {m : List (κ × α)} (h : alookup k' m = none) :
    alookup k' (aerase k m) = none := by
  by_cases hk : k' = k
  · subst hk; exact alookup_aerase_self _ m
  · rw [alookup_aerase_ne hk]; exact h

end AssocList

section SortByKey

variable {α : Type}

/-- Insertion into a list ordered by ascending numeric first component. -/
def insertByKey (p : Nat × α) : List (Nat × α) → List (Nat × α)
  | [] => [p]
  | q :: qs => if p.1 ≤ q.1 then p :: q :: qs else q :: insertByKey p qs

/-- Sorting by ascending numeric first component; this models the JavaScript
Array.prototype.sort comparator (a, b) => a - b used on chunk indices and on
recorded multipart part numbers. -/
def sortByKey : List (Nat × α) → List (Nat × α)
  | [] => []
  | p :: ps => insertByKey p (sortByKey ps)

theorem insertByKey_perm (p : Nat × α) :
    ∀ l : List (Nat × α), (insertByKey p l).Perm (p :: l) := by
  intro l
  induction l with
  | nil => simp [insertByKey]
  | cons q qs ih =>
    by_cases h : p.1 ≤ q.1
    · simp [insertByKey, h]
    · simp only [insertByKey, if_neg h]
      exact (ih.cons q).trans (List.Perm.swap p q qs)

theorem sortByKey_perm : ∀ l : List (Nat × α), (sortByKey l).Perm l := by
  intro l
  induction l with
  | nil => simp [sortByKey]
  | cons p ps ih =>
    exact (insertByKey_perm p (sortByKey ps)).trans (ih.cons p)

theorem insertByKey_sorted (p : Nat × α) :
    ∀ l : List (Nat × α), l.Pairwise (fun a b => a.1 ≤ b.1) →
      (insertByKey p l).Pairwise (fun a b => a.1 ≤ b.1) := by
  intro l
  induction l with
  | nil => intro _; simp [insertByKey]
  | cons q qs ih =>
    intro h
    rw [List.pairwise_cons] at h
    by_cases hle : p.1 ≤ q.1
    · rw [insertByKey, if_pos hle, List.pairwise_cons]
      refine ⟨?_, List.pairwise_cons.mpr h⟩
      intro b hb
      rcases List.mem_cons.mp hb with hb | hb
      · subst hb
        exact hle
      · exact le_trans hle (h.1 b hb)
    · rw [insertByKey, if_neg hle, List.pairwise_cons]
      refine ⟨?_, ih h.2⟩
      intro b hb
      have hmem : b ∈ p :: qs := (insertByKey_perm p qs).mem_iff.mp hb
      rcases List.mem_cons.mp hmem with hb2 | hb2
      · subst hb2
        exact le_of_not_le hle
      · exact h.1 b hb2

theorem sortByKey_sorted : ∀ l : List (Nat × α),
    (sortByKey l).Pairwise (fun a b => a.1 ≤ b.1) := by
  intro l
  induction l with
  | nil => simp [sortByKey]
  | cons p ps ih => exact insertByKey_sorted p (sortByKey ps) ih

/-- Two lists sorted strictly by key are equal when they are permutations of
each other. -/
theorem eq_of_perm_of_keySorted {l₁ l₂ : List (Nat × α)} (hp : l₁.Perm l₂)
    (h₁ : l₁.Pairwise (fun a b => a.1 < b.1)) (h₂ : l₂.Pairwise (fun a b => a.1 < b.1)) :
    l₁ = l₂ := by
  haveI : IsAntisymm (Nat × α) (fun a b => a.1 < b.1) :=
    ⟨fun a b hab hba => absurd (lt_trans hab hba) (lt_irrefl _)⟩
  exact List.eq_of_perm_of_sorted hp h₁ h₂

theorem pairwise_lt_of_le_nodup {l : List (Nat × α)}
    (hle : l.Pairwise (fun a b => a.1 ≤ b.1)) (hnd : (l.map Prod.fst).Nodup) :
    l.Pairwise (fun a b => a.1 < b.1) := by
  have hne : l.Pairwise (fun a b : Nat × α => a.1 ≠ b.1) := by
    rw [List.Nodup, List.pairwise_map] at hnd
    exact hnd
  exact (hle.and hne).imp fun h => lt_of_le_of_ne h.1 h.2

/-- Sorting a permutation of a strictly key-sorted list recovers that list. -/
theorem sortByKey_eq_of_perm_sorted {l m : List (Nat × α)} (hp : l.Perm m)
    (hm : m.Pairwise (fun a b => a.1 < b.1)) : sortByKey l = m := by
  have hnd : (m.map Prod.fst).Nodup := by
    rw [List.Nodup, List.pairwise_map]
    exact hm.imp fun h => Nat.ne_of_lt h
  have hnd' : ((sortByKey l).map Prod.fst).Nodup :=
    (((sortByKey_perm l).trans hp).map Prod.fst).nodup_iff.mpr hnd
  exact eq_of_perm_of_keySorted ((sortByKey_perm l).trans hp)
    (pairwise_lt_of_le_nodup (sortByKey_sorted l) hnd') hm

/-- Sorting is invariant under permutation of inputs with distinct keys. -/
theorem sortByKey_congr_perm {l m : List (Nat × α)} (hp : l.Perm m)
    (hm : (m.map Prod.fst).Nodup) : sortByKey l = sortByKey m := by
  have hms : (sortByKey m).Pairwise (fun a b => a.1 < b.1) := by
    refine pairwise_lt_of_le_nodup (sortByKey_sorted m) ?_
    exact (((sortByKey_perm m).map Prod.fst)).nodup_iff.mpr hm
  exact sortByKey_eq_of_perm_sorted (hp.trans (sortByKey_perm m).symm) hms

theorem sortByKey_eq_self_of_sorted {l : List (Nat × α)}
    (hl : l.Pairwise (fun a b => a.1 < b.1)) : sortByKey l = l :=
  sortByKey_eq_of_perm_sorted (List.Perm.refl l) hl

end SortByKey

section B2Upload

-- Model of uploadFileToB2 (src/modules/b2Upload.js).  For files of at most
-- 5 MB a single PutObjectCommand is sent; larger files go through the
-- multipart protocol: CreateMultipartUpload, one UploadPartCommand per 5 MB
-- slice of the file buffer (issued concurrently through Promise.all, so the
-- uploadedParts array fills in completion order), then
-- CompleteMultipartUpload with the recorded parts sorted by PartNumber.
-- The remote store assembles the object from the submitted parts in the
-- submitted order; the ETag recorded for a part is modelled by the bytes
-- that were uploaded for that part, which is what the tag identifies.

/-- The 5 MB single-shot threshold of uploadFileToB2. -/
def singleShotThreshold : Nat := 5 * 1024 * 1024

/-- The 5 MB part size of the multipart branch of uploadFileToB2. -/
def b2PartSize : Nat := 5 * 1024 * 1024

/-- partCount = Math.ceil(fileSize / partSize). -/
def b2PartCount (fileSize : Nat) : Nat := (fileSize + b2PartSize - 1) / b2PartSize

/-- The multipart parts: part number i + 1 carries
fileBuffer.slice(i * partSize, min((i + 1) * partSize, fileSize)). -/
def makeParts (file : Bytes) : List (Nat × Bytes) :=
  (List.range (b2PartCount file.length)).map fun i =>
    (i + 1, (file.drop (i * b2PartSize)).take b2PartSize)

/-- The S3 commands uploadFileToB2 can send to the remote store. -/
inductive B2Action : Type
  | putObject (key contentType : String)
  | createMultipart (key contentType : String)
  | uploadPart (partNumber : Nat)
  | completeMultipart (key : String) (parts : List (Nat × Bytes))
  | abortMultipart (key : String)
deriving DecidableEq

/-- Outcome of one call to uploadFileToB2: the committed object bytes (or
the propagated error) and the trace of commands sent to the store. -/
structure B2Run : Type where
  result : Except Unit Bytes
  actions : List B2Action

/-- uploadFileToB2(filePath, bucketName, key, contentType), with the file
contents passed by value, the completion order of the parallel part uploads
passed as arrival (constrained to a permutation of the issued parts in the
theorems), and the success of each part upload passed as partOk. -/
def uploadFileToB2 (file : Bytes) (key contentType : String)
    (arrival : List (Nat × Bytes)) (partOk : Nat → Bool) : B2Run :=
  if file.length ≤ singleShotThreshold then
    { result := .ok file, actions := [.putObject key contentType] }
  else
    let parts := makeParts file
    let issued := B2Action.createMultipart key contentType ::
      parts.map (fun p => B2Action.uploadPart p.1)
    if parts.all (fun p => partOk p.1) then
      let sorted := sortByKey arrival
      { result := .ok ((sorted.map Prod.snd).flatten),
        actions := issued ++ [B2Action.completeMultipart key sorted] }
    else
      { result := .error (), actions := issued }

/-- The generic slicing scheme of the multipart loop. -/
def slicesOf (k : Nat) (f : Bytes) : List Bytes :=
  (List.range ((f.length + k - 1) / k)).map fun i => (f.drop (i * k)).take k

theorem slicesOf_cons (k : Nat) (hk : 0 < k) (f : Bytes) (hf : f ≠ []) :
    slicesOf k f = f.take k :: slicesOf k (f.drop k) := by
  have hlen : 0 < f.length := List.length_pos.mpr hf
  have hcount : (f.length + k - 1) / k = (f.length - 1) / k + 1 := by
    have h1 : f.length + k - 1 = (f.length - 1) + k := by omega
    rw [h1, Nat.add_div_right _ hk]
  have hcount' : ((f.drop k).length + k - 1) / k = (f.length - 1) / k := by
    rw [List.length_drop]
    rcases Nat.lt_or_ge k f.length with hlt | hge
    · have h1 : f.length - k + k - 1 = (f.length - 1 - k) + k := by omega
      rw [h1, Nat.add_div_right _ hk]
      have h2 : (f.length - 1) / k = ((f.length - 1) - k) / k + 1 :=
        Nat.div_eq_sub_div hk (by omega)
      omega
    · have h0 : f.length - k = 0 := by omega
      rw [h0]
      have hz : (f.length - 1) / k = 0 := Nat.div_eq_of_lt (by omega)
      rw [hz, Nat.zero_add]
      exact Nat.div_eq_of_lt (by omega)
  rw [slicesOf, hcount, List.range_succ_eq_map, List.map_cons]
  simp only [Nat.zero_mul, List.drop_zero, List.map_map]
  rw [slicesOf, hcount']
  refine congrArg (f.take k :: ·) (List.map_congr_left fun i _ => ?_)
  simp only [Function.comp_apply]
  rw [List.drop_drop]
  congr 1
  simp [Nat.succ_eq_add_one]
  ring_nf

theorem slicesOf_flatten (k : Nat) (hk : 0 < k) :
    ∀ (n : Nat) (f : Bytes), f.length ≤ n → (slicesOf k f).flatten = f := by
  intro n
  induction n with
  | zero =>
    intro f hf
    have : f = [] := List.eq_nil_of_length_eq_zero (Nat.le_zero.mp hf)
    subst this
    simp [slicesOf]
  | succ n ih =>
    intro f hf
    rcases eq_or_ne f [] with h0 | h0
    · subst h0
      simp [slicesOf]
    · rw [slicesOf_cons k hk f h0, List.flatten_cons]
      have hlen : 0 < f.length := List.length_pos.mpr h0
      have : (f.drop k).length ≤ n := by
        rw [List.length_drop]
        omega
      rw [ih (f.drop k) this, List.take_append_drop]

/-- The bodies of the issued parts, in their issued (part-number) order,
concatenate back to the file. -/
theorem makeParts_flatten (file : Bytes) :
    ((makeParts file).map Prod.snd).flatten = file := by
  have h : (makeParts file).map Prod.snd = slicesOf b2PartSize file := by
    rw [makeParts, slicesOf, List.map_map]
    rfl
  rw [h]
  exact slicesOf_flatten b2PartSize (by norm_num [b2PartSize]) file.length file le_rfl

/-- The issued parts are strictly ordered by part number. -/
theorem makeParts_keySorted (file : Bytes) :
    (makeParts file).Pairwise (fun a b => a.1 < b.1) := by
  rw [makeParts, List.pairwise_map]
  exact (List.pairwise_lt_range _).imp fun h => Nat.succ_lt_succ h

end B2Upload

section Server

-- Model of the chunked-upload endpoints of src/server.js.

/-- The paths the coordinator touches under the uploads directory.  The
multer disk storage of POST /upload/chunk names a chunk file
uploads/chunks/{uploadId}_{chunkIndex} (a deterministic key per session and
index, so re-sending a chunk overwrites the file); POST /upload/complete
writes a temporary combined file uploads/temp_{uploadId}_{now}.tmp. -/
inductive FsPath : Type
  | chunk (uploadId : String) (index : Nat)
  | temp (name : String)
deriving DecidableEq

/-- The entry stored in a session's chunks map:
{ path: chunkFile.path, size: chunkFile.size }. -/
structure ChunkInfo : Type where
  path : FsPath
  size : Nat
deriving DecidableEq

/-- An entry of the activeUploads map, as created by POST /upload/init.
The init handler stores no contentType property, so the field is an Option
that init leaves at none (JavaScript undefined). -/
structure UploadInfo : Type where
  fileName : String
  originalFileName : String
  userId : String
  fileSize : Nat
  contentType : Option String
  chunks : List (Nat × ChunkInfo)
  createdAt : Nat
deriving DecidableEq

/-- Server state: the in-memory activeUploads map, the contents of the
local uploads directory, and the remote B2 bucket (object key to bytes). -/
structure ServerState : Type where
  activeUploads : List (String × UploadInfo)
  files : List (FsPath × Bytes)
  store : List (String × Bytes)
deriving DecidableEq

/-- The error taxonomy surfaced by the handlers. -/
inductive UploadError : Type
  | InvalidRequest
  | SessionNotFound
  | AssemblyIOError
  | BackendUploadFailed
deriving DecidableEq

/-- The session record POST /upload/init inserts into activeUploads: the
object literal of the handler, which carries no contentType property. -/
def initSession (fileName : String) (fileSize : Nat) (userId finalFileName : String)
    (now : Nat) : UploadInfo :=
  { fileName := finalFileName, originalFileName := fileName, userId := userId,
    fileSize := fileSize, contentType := none, chunks := [], createdAt := now }

/-- POST /upload/init.  The random uploadId (crypto.randomBytes) and the
randomized stored filename (generateRandomFilename) are passed in as the
draws of the randomness source; now is Date.now().  Missing fileName or
fileSize (JavaScript falsy: absent, empty, or zero) is a 400. -/
def uploadInit (st : ServerState) (fileName : String) (fileSize : Nat) (userId : String)
    (uploadId finalFileName : String) (now : Nat) :
    Except UploadError (ServerState × String × String) :=
  if fileName = "" ∨ fileSize = 0 then
    .error .InvalidRequest
  else
    .ok ({ st with
            activeUploads := aset uploadId
              (initSession fileName fileSize userId finalFileName now)
              st.activeUploads },
         uploadId, finalFileName)

/-- POST /upload/chunk.  Multer has already written the chunk payload to its
deterministic path before the handler runs; a missing session deletes that
file again and answers 404; otherwise the session's chunks map is updated
(Map.set: the last write for an index wins) and the handler answers with the
chunk index and the new chunk count. -/
def uploadChunk (st : ServerState) (uploadId : String) (chunkIndex : Nat) (payload : Bytes) :
    ServerState × Except UploadError (Nat × Nat) :=
  let cpath : FsPath := .chunk uploadId chunkIndex
  let files1 := aset cpath payload st.files
  match alookup uploadId st.activeUploads with
  | none => ({ st with files := aerase cpath files1 }, .error .SessionNotFound)
  | some info =>
    let info' :=
      { info with chunks := aset chunkIndex ⟨cpath, payload.length⟩ info.chunks }
    ({ st with files := files1, activeUploads := aset uploadId info' st.activeUploads },
     .ok (chunkIndex, info'.chunks.length))

/-- A sequence of POST /upload/chunk calls for one session, in arrival
order (the list order is the arrival order). -/
def attachMany (st : ServerState) (uploadId : String) (evs : List (Nat × Bytes)) : ServerState :=
  evs.foldl (fun s e => (uploadChunk s uploadId e.1 e.2).1) st

/-- The combine loop of POST /upload/complete reads the sorted chunk files
one after another with fs.readFileSync; the result is none as soon as some
chunk file is missing (readFileSync throws). -/
def readChunksFrom (files : List (FsPath × Bytes)) : List (Nat × ChunkInfo) → Option (List Bytes)
  | [] => some []
  | c :: rest =>
    match alookup c.2.path files, readChunksFrom files rest with
    | some d, some ds => some (d :: ds)
    | _, _ => none

/-- The bytes the combine loop has already written to the temporary file
when it stops: every chunk before the first failing read. -/
def readCombined (files : List (FsPath × Bytes)) : List (Nat × ChunkInfo) → Bytes
  | [] => []
  | c :: rest =>
    match alookup c.2.path files with
    | some d => d ++ readCombined files rest
    | none => []

/-- The call POST /upload/complete hands to uploadFileToB2. -/
structure BackendCall : Type where
  key : String
  contentType : String
  body : Bytes
deriving DecidableEq

/-- The JSON success payload of POST /upload/complete. -/
structure CompleteResponse : Type where
  userId : String
  originalFileName : String
  finalFileName : String
  b2Key : String
  fileSize : Nat
deriving DecidableEq

/-- Result of one POST /upload/complete call: the new server state, the
response, and the backend upload that was issued (none when the handler
failed before reaching uploadFileToB2). -/
structure CompleteOutcome : Type where
  state : ServerState
  response : Except UploadError CompleteResponse
  backendCall : Option BackendCall

/-- POST /upload/complete.  tempName names the temporary combined file;
b2ok is the outcome of the awaited uploadFileToB2 call (the SDK is remote
and can fail).  The handler: looks the session up (404 when absent), sorts
the chunks by index, streams them into the temporary file, uploads the
combined file to key {userId}/{fileName} with the session's contentType
defaulted to application/octet-stream, and only on success deletes the
temporary file and the chunk files and removes the session.  On the success
path the store gains the assembled bytes at the final key, which is what
uploadFileToB2 commits for that input (makeParts_flatten and
uploadFileToB2 above); any earlier object at that key is replaced.  On any
failure the handler answers 500 and leaves the session and the chunk files
untouched. -/
def uploadComplete (st : ServerState) (uploadId : String) (tempName : String) (b2ok : Bool) :
    CompleteOutcome :=
  match alookup uploadId st.activeUploads with
  | none => ⟨st, .error .SessionNotFound, none⟩
  | some info =>
    let finalKey := info.userId ++ "/" ++ info.fileName
    let sorted := sortByKey info.chunks
    match readChunksFrom st.files sorted with
    | none =>
      ⟨{ st with files := aset (.temp tempName) (readCombined st.files sorted) st.files },
       .error .AssemblyIOError, none⟩
    | some datas =>
      let assembled := datas.flatten
      let contentType := info.contentType.getD "application/octet-stream"
      let files1 := aset (.temp tempName) assembled st.files
      if b2ok then
        let files2 := aerase (FsPath.temp tempName) files1
        let files3 := sorted.foldl (fun fs c => aerase c.2.path fs) files2
        ⟨{ activeUploads := aerase uploadId st.activeUploads,
           files := files3,
           store := aset finalKey assembled st.store },
         .ok ⟨info.userId, info.originalFileName, info.fileName, finalKey, assembled.length⟩,
         some ⟨finalKey, contentType, assembled⟩⟩
      else
        ⟨{ st with files := files1 }, .error .BackendUploadFailed,
         some ⟨finalKey, contentType, assembled⟩⟩

/-- CLEANUP_CONFIG.uploadSessionTimeout: 24 hours in milliseconds. -/
def uploadSessionTimeout : Nat := 24 * 60 * 60 * 1000

/-- The loop body of the expired-session pass of cleanupOrphanedChunks:
when the visited session is older than uploadSessionTimeout, unlink its
chunk files (best effort: a failed unlink, unlinkOk returning false, is
logged and the loop continues) and then delete the session from
activeUploads; a younger session is left alone. -/
def reapSession (unlinkOk : FsPath → Bool) (now : Nat) (acc : ServerState)
    (entry : String × UploadInfo) : ServerState :=
  if uploadSessionTimeout < now - entry.2.createdAt then
    { acc with
      files := entry.2.chunks.foldl
        (fun fs c => if unlinkOk c.2.path then aerase c.2.path fs else fs) acc.files,
      activeUploads := aerase entry.1 acc.activeUploads }
  else acc

/-- The expired-session pass of cleanupOrphanedChunks (the Reaper), run over
every entry of activeUploads.  The separate mtime-based sweeps over orphaned
chunk files and stray temp files act on file ages that this state does not
record and are outside the model. -/
def cleanupOrphanedChunks (st : ServerState) (now : Nat) (unlinkOk : FsPath → Bool) :
    ServerState :=
  st.activeUploads.foldl (reapSession unlinkOk now) st

end Server

section KeyResolver

-- Model of the filename collision loop of POST /upload (src/server.js);
-- the same while(true) shape appears in uploadFilesToB2
-- (src/modules/b2Upload.js).

/-- Result of one HeadObjectCommand existence probe: the object exists (the
command succeeds), the store answers NotFound/404, or some other error
occurs. -/
inductive ProbeResult : Type
  | found
  | notFound
  | otherError
deriving DecidableEq

/-- The basename/extension split of path.parse for ordinary file names: the
extension starts at the last dot, except that a name whose only dot is its
first character has no extension. -/
def splitExt (fn : String) : String × String :=
  let cs := fn.toList
  let extLen := (cs.reverse.takeWhile (fun c => c != '.')).length
  if extLen < cs.length then
    let dotPos := cs.length - extLen - 1
    if dotPos = 0 then (fn, "")
    else (String.mk (cs.take dotPos), String.mk (cs.drop dotPos))
  else (fn, "")

/-- The while(true) suffix loop: probe {userId}/{current}; when the probe
reports the key exists, build {name}_{suffix}{ext} from the original random
filename and re-probe with the next suffix; when the probe reports NotFound
or any other error, break with the current candidate.  fuel bounds how many
iterations we unroll; none means the loop is still running after fuel
probes. -/
def resolveAux (probe : String → ProbeResult) (userId randomFilename : String) :
    String → Nat → Nat → Option String
  | _, _, 0 => none
  | current, suffix, fuel + 1 =>
    match probe (userId ++ "/" ++ current) with
    | .found =>
      let pr := splitExt randomFilename
      resolveAux probe userId randomFilename
        (pr.1 ++ "_" ++ toString suffix ++ pr.2) (suffix + 1) fuel
    | _ => some current

/-- Entry into the loop: the first probed candidate is the random filename
itself and the first appended suffix is 1. -/
def resolveFilename (probe : String → ProbeResult) (userId randomFilename : String)
    (fuel : Nat) : Option String :=
  resolveAux probe userId randomFilename randomFilename 1 fuel

/-- When every probe reports that the key exists, every unrolling of the
loop is still running: the loop has no iteration bound and no exhaustion
error. -/
theorem resolveAux_found_none (userId randomFilename : String) :
    ∀ (fuel : Nat) (current : String) (suffix : Nat),
      resolveAux (fun _ => ProbeResult.found) userId randomFilename current suffix fuel
        = none := by
  intro fuel
  induction fuel with
  | zero => intro current suffix; rfl
  | succ fuel ih =>
    intro current suffix
    rw [resolveAux]
    exact ih _ _

end KeyResolver

section Lemmas

-- Supporting lemmas about the server operations, shared by the claim
-- theorems below.

/-- Effect of a run of chunk-attach calls on a known session: the session's
chunks map accumulates one Map.set per call, the uploads directory
accumulates one file write per call, and the remote store is untouched. -/
theorem attachMany_spec (uploadId : String) :
    ∀ (evs : List (Nat × Bytes)) (st : ServerState) (info : UploadInfo),
      alookup uploadId st.activeUploads = some info →
      alookup uploadId (attachMany st uploadId evs).activeUploads
          = some { info with
              chunks := evs.foldl
                (fun m e => aset e.1 (⟨FsPath.chunk uploadId e.1, e.2.length⟩ : ChunkInfo) m)
                info.chunks }
      ∧ (attachMany st uploadId evs).files
          = evs.foldl (fun fs e => aset (FsPath.chunk uploadId e.1) e.2 fs) st.files
      ∧ (attachMany st uploadId evs).store = st.store := by
  intro evs
  induction evs with
  | nil =>
    intro st info hs
    refine ⟨?_, rfl, rfl⟩
    simpa [attachMany] using hs
  | cons e evs ih =>
    intro st info hs
    have hstep : (uploadChunk st uploadId e.1 e.2).1
        = { st with
            files := aset (FsPath.chunk uploadId e.1) e.2 st.files,
            activeUploads := aset uploadId
              { info with
                  chunks := aset e.1 ⟨FsPath.chunk uploadId e.1, e.2.length⟩ info.chunks }
              st.activeUploads } := by
      simp [uploadChunk, hs]
    have hlk : alookup uploadId ((uploadChunk st uploadId e.1 e.2).1).activeUploads
        = some { info with
            chunks := aset e.1 ⟨FsPath.chunk uploadId e.1, e.2.length⟩ info.chunks } := by
      rw [hstep]
      exact alookup_aset_self _ _ _
    have h := ih (uploadChunk st uploadId e.1 e.2).1 _ hlk
    have hunf : attachMany st uploadId (e :: evs)
        = attachMany (uploadChunk st uploadId e.1 e.2).1 uploadId evs := rfl
    refine ⟨?_, ?_, ?_⟩
    · rw [hunf]
      exact h.1
    · rw [hunf, h.2.1, hstep]
      rfl
    · rw [hunf, h.2.2, hstep]

/-- Folding Map.set over events with fresh, pairwise distinct keys appends
the events in order. -/
theorem foldl_aset_append {γ : Type} (g : Nat × Bytes → γ) :
    ∀ (evs : List (Nat × Bytes)) (acc : List (Nat × γ)),
      (∀ e ∈ evs, ∀ q ∈ acc, q.1 ≠ e.1) → (evs.map Prod.fst).Nodup →
      evs.foldl (fun m e => aset e.1 (g e) m) acc
        = acc ++ evs.map (fun e => (e.1, g e)) := by
  intro evs
  induction evs with
  | nil => intro acc _ _; simp
  | cons e evs ih =>
    intro acc hdisj hnd
    rw [List.map_cons, List.nodup_cons] at hnd
    have h1 : aset e.1 (g e) acc = acc ++ [(e.1, g e)] :=
      aset_append_of_not_mem _ _ acc (fun q hq => hdisj e (by simp) q hq)
    rw [List.foldl_cons, h1, ih (acc ++ [(e.1, g e)]) ?_ hnd.2]
    · simp
    · intro e2 he2 q hq
      rcases List.mem_append.mp hq with hq | hq
      · exact hdisj e2 (by simp [he2]) q hq
      · have hq' : q = (e.1, g e) := by simpa using hq
        subst hq'
        intro hcontra
        exact hnd.1 (by
          rw [hcontra]
          exact List.mem_map_of_mem Prod.fst he2)

/-- A fold of chunk-file writes leaves paths it never writes alone. -/
theorem alookup_foldl_files_ne (uploadId : String) (q : FsPath) :
    ∀ (evs : List (Nat × Bytes)) (fs : List (FsPath × Bytes)),
      (∀ e ∈ evs, FsPath.chunk uploadId e.1 ≠ q) →
      alookup q (evs.foldl (fun fs e => aset (FsPath.chunk uploadId e.1) e.2 fs) fs)
        = alookup q fs := by
  intro evs
  induction evs with
  | nil => intro fs _; rfl
  | cons e evs ih =>
    intro fs h
    rw [List.foldl_cons, ih _ (fun e2 he2 => h e2 (by simp [he2]))]
    exact alookup_aset_ne (fun heq => h e (by simp) heq.symm) _ _

/-- After a fold of chunk-file writes with pairwise distinct indices, the
file of each written index holds that write. -/
theorem alookup_foldl_files (uploadId : String) :
    ∀ (evs : List (Nat × Bytes)) (fs : List (FsPath × Bytes)) (i : Nat) (p : Bytes),
      (i, p) ∈ evs → (evs.map Prod.fst).Nodup →
      alookup (FsPath.chunk uploadId i)
        (evs.foldl (fun fs e => aset (FsPath.chunk uploadId e.1) e.2 fs) fs) = some p := by
  intro evs
  induction evs with
  | nil => intro fs i p h _; cases h
  | cons e evs ih =>
    intro fs i p hmem hnd
    rw [List.map_cons, List.nodup_cons] at hnd
    rcases List.mem_cons.mp hmem with he | he
    · rw [List.foldl_cons,
        alookup_foldl_files_ne uploadId (FsPath.chunk uploadId i) evs _ ?_]
      · rw [← he]
        exact alookup_aset_self _ _ _
      · intro e2 he2 hcontra
        have h2 : e2.1 = i := by
          injection hcontra
        apply hnd.1
        have : e.1 = i := by rw [← he]
        rw [this, ← h2]
        exact List.mem_map_of_mem Prod.fst he2
    · rw [List.foldl_cons]
      exact ih _ i p he hnd.2

/-- Reading the chunk files of a key-preserving chunk list recovers the
payloads. -/
theorem readChunksFrom_map (files : List (FsPath × Bytes)) (uploadId : String) :
    ∀ (l : List (Nat × Bytes)),
      (∀ e ∈ l, alookup (FsPath.chunk uploadId e.1) files = some e.2) →
      readChunksFrom files
        (l.map (fun e => (e.1, (⟨FsPath.chunk uploadId e.1, e.2.length⟩ : ChunkInfo))))
        = some (l.map Prod.snd) := by
  intro l
  induction l with
  | nil => intro _; rfl
  | cons e l ih =>
    intro h
    rw [List.map_cons]
    have h1 : alookup (FsPath.chunk uploadId e.1) files = some e.2 := h e (by simp)
    have h2 := ih (fun e2 he2 => h e2 (by simp [he2]))
    simp only [readChunksFrom]
    rw [h1, h2]
    rfl

/-- Inserting into a key-preserving image commutes with the image. -/
theorem insertByKey_map {α β : Type} (g : Nat × α → β) (p : Nat × α) :
    ∀ l : List (Nat × α),
      insertByKey (p.1, g p) (l.map (fun e => (e.1, g e)))
        = (insertByKey p l).map (fun e => (e.1, g e)) := by
  intro l
  induction l with
  | nil => rfl
  | cons q l ih =>
    by_cases h : p.1 ≤ q.1
    · simp [insertByKey, h]
    · simp [insertByKey, h, ih]

/-- Sorting by key commutes with key-preserving images. -/
theorem sortByKey_map {α β : Type} (g : Nat × α → β) :
    ∀ l : List (Nat × α),
      sortByKey (l.map (fun e => (e.1, g e))) = (sortByKey l).map (fun e => (e.1, g e)) := by
  intro l
  induction l with
  | nil => rfl
  | cons p l ih =>
    rw [List.map_cons, sortByKey, ih, insertByKey_map, sortByKey]

/-- The best-effort chunk-unlink loop of the Reaper never creates a file. -/
theorem alookup_chunkfold_none (unlinkOk : FsPath → Bool) (q : FsPath) :
    ∀ (chunks : List (Nat × ChunkInfo)) (fs : List (FsPath × Bytes)),
      alookup q fs = none →
      alookup q (chunks.foldl
        (fun fs c => if unlinkOk c.2.path then aerase c.2.path fs else fs) fs) = none := by
  intro chunks
  induction chunks with
  | nil => intro fs h; exact h
  | cons c chunks ih =>
    intro fs h
    rw [List.foldl_cons]
    apply ih
    by_cases hok : unlinkOk c.2.path
    · simpa [hok] using alookup_aerase_none h
    · simpa [hok] using h

/-- The best-effort chunk-unlink loop removes every chunk file whose unlink
succeeds. -/
theorem alookup_chunkfold_erased (unlinkOk : FsPath → Bool) :
    ∀ (chunks : List (Nat × ChunkInfo)) (fs : List (FsPath × Bytes)) (c : Nat × ChunkInfo),
      c ∈ chunks → unlinkOk c.2.path = true →
      alookup c.2.path (chunks.foldl
        (fun fs c => if unlinkOk c.2.path then aerase c.2.path fs else fs) fs) = none := by
  intro chunks
  induction chunks with
  | nil => intro fs c h _; cases h
  | cons c0 chunks ih =>
    intro fs c hmem hok
    rcases List.mem_cons.mp hmem with he | he
    · subst he
      rw [List.foldl_cons, if_pos hok]
      exact alookup_chunkfold_none _ _ chunks _ (alookup_aerase_self _ _)
    · rw [List.foldl_cons]
      exact ih _ c he hok

/-- One Reaper step never creates a file. -/
theorem reapSession_files_none {q : FsPath} (unlinkOk : FsPath → Bool) (now : Nat)
    (acc : ServerState) (entry : String × UploadInfo) (h : alookup q acc.files = none) :
    alookup q (reapSession unlinkOk now acc entry).files = none := by
  rw [reapSession]
  split
  · exact alookup_chunkfold_none _ _ _ _ h
  · exact h

/-- One Reaper step never creates a session. -/
theorem reapSession_reg_none {uid : String} (unlinkOk : FsPath → Bool) (now : Nat)
    (acc : ServerState) (entry : String × UploadInfo)
    (h : alookup uid acc.activeUploads = none) :
    alookup uid (reapSession unlinkOk now acc entry).activeUploads = none := by
  rw [reapSession]
  split
  · exact alookup_aerase_none h
  · exact h

/-- The Reaper sweep never creates files. -/
theorem foldl_reap_files_none {q : FsPath} (unlinkOk : FsPath → Bool) (now : Nat) :
    ∀ (entries : List (String × UploadInfo)) (acc : ServerState),
      alookup q acc.files = none →
      alookup q (entries.foldl (reapSession unlinkOk now) acc).files = none := by
  intro entries
  induction entries with
  | nil => intro acc h; exact h
  | cons e entries ih =>
    intro acc h
    exact ih _ (reapSession_files_none unlinkOk now acc e h)

/-- The Reaper sweep never creates sessions. -/
theorem foldl_reap_reg_none {uid : String} (unlinkOk : FsPath → Bool) (now : Nat) :
    ∀ (entries : List (String × UploadInfo)) (acc : ServerState),
      alookup uid acc.activeUploads = none →
      alookup uid (entries.foldl (reapSession unlinkOk now) acc).activeUploads = none := by
  intro entries
  induction entries with
  | nil => intro acc h; exact h
  | cons e entries ih =>
    intro acc h
    exact ih _ (reapSession_reg_none unlinkOk now acc e h)

end Lemmas

section Claims

/-- Bound on the byte length of one issued part. -/
theorem makeParts_mem_length {file : Bytes} {p : Nat × Bytes} (hp : p ∈ makeParts file) :
    p.2.length ≤ b2PartSize ∧ (p.1 < b2PartCount file.length → p.2.length = b2PartSize) := by
  rw [makeParts] at hp
  rcases List.mem_map.mp hp with ⟨i, hi, hpe⟩
  rw [List.mem_range] at hi
  subst hpe
  constructor
  · simp [List.length_take]
  · intro hlt
    have hk : 0 < b2PartSize := by norm_num [b2PartSize]
    have h2 : i + 2 ≤ (file.length + b2PartSize - 1) / b2PartSize := by
      have hlt2 : i + 1 < b2PartCount file.length := hlt
      rw [b2PartCount] at hlt2
      omega
    have h3 : (i + 2) * b2PartSize ≤ file.length + b2PartSize - 1 :=
      (Nat.le_div_iff_mul_le hk).mp h2
    have h4 : i * b2PartSize + b2PartSize ≤ file.length - 1 := by
      have hmul : (i + 2) * b2PartSize = i * b2PartSize + 2 * b2PartSize := by ring
      simp [b2PartSize] at h3 hmul ⊢
      omega
    simp only [List.length_take, List.length_drop]
    have : b2PartSize ≤ file.length - i * b2PartSize := by
      simp [b2PartSize] at h4 ⊢
      omega
    omega

/-- The multipart failure path as one equation: above the threshold with
some part upload failing, the run is the issued commands with a propagated
error and nothing else — in particular no abort. -/
theorem uploadFileToB2_multipart_failure (file : Bytes) (key contentType : String)
    (arrival : List (Nat × Bytes)) (partOk : Nat → Bool)
    (hlarge : ¬ file.length ≤ singleShotThreshold)
    (hfail : ((makeParts file).all fun p => partOk p.1) = false) :
    uploadFileToB2 file key contentType arrival partOk
      = ⟨.error (), B2Action.createMultipart key contentType ::
          (makeParts file).map (fun p => B2Action.uploadPart p.1)⟩ := by
  simp only [uploadFileToB2, if_neg hlarge, hfail, Bool.false_eq_true, if_false]

/-- C2: uploadFileToB2 commits exactly the input bytes.  At or below the
5 MB single-shot threshold it issues one atomic PutObject of the file.
Above it, it issues CreateMultipartUpload, one UploadPart per 5 MB slice of
the file (the final slice possibly smaller, every other slice exactly 5 MB),
and one CompleteMultipartUpload whose submitted part list is the recorded
(partNumber, tag) arrivals sorted by part number — equal to the issued
slices in ascending part order however the part uploads finished — and the
committed object bytes equal the input file in both branches. -/
theorem uploadFileToB2_commits_file (file : Bytes) (key contentType : String)
    (arrival : List (Nat × Bytes))
    (hperm : arrival.Perm (makeParts file)) :
    (uploadFileToB2 file key contentType arrival (fun _ => true)).result = .ok file
    ∧ (file.length ≤ singleShotThreshold →
        (uploadFileToB2 file key contentType arrival (fun _ => true)).actions
          = [B2Action.putObject key contentType])
    ∧ (singleShotThreshold < file.length →
        (uploadFileToB2 file key contentType arrival (fun _ => true)).actions
          = B2Action.createMultipart key contentType ::
              ((makeParts file).map (fun p => B2Action.uploadPart p.1)
                ++ [B2Action.completeMultipart key (makeParts file)])
          ∧ (∀ p ∈ makeParts file, p.2.length ≤ b2PartSize)
          ∧ (∀ p ∈ makeParts file, p.1 < b2PartCount file.length →
              p.2.length = b2PartSize)) := by
  have hsort : sortByKey arrival = makeParts file :=
    sortByKey_eq_of_perm_sorted hperm (makeParts_keySorted file)
  by_cases hle : file.length ≤ singleShotThreshold
  · have heq : uploadFileToB2 file key contentType arrival (fun _ => true)
        = ⟨.ok file, [B2Action.putObject key contentType]⟩ := by
      simp only [uploadFileToB2, if_pos hle]
    rw [heq]
    exact ⟨rfl, fun _ => rfl, fun hgt => absurd hle (not_le.mpr hgt)⟩
  · have heq : uploadFileToB2 file key contentType arrival (fun _ => true)
        = ⟨.ok (((sortByKey arrival).map Prod.snd).flatten),
           B2Action.createMultipart key contentType ::
             ((makeParts file).map (fun p => B2Action.uploadPart p.1)
               ++ [B2Action.completeMultipart key (sortByKey arrival)])⟩ := by
      simp only [uploadFileToB2, if_neg hle, List.all_eq_true]
      rw [if_pos (show ∀ p ∈ makeParts file, True from fun p _ => trivial)]
      rw [List.cons_append]
    rw [heq]
    refine ⟨?_, fun hle2 => absurd hle2 hle, fun _ => ⟨?_, ?_, ?_⟩⟩
    · show Except.ok (((sortByKey arrival).map Prod.snd).flatten) = Except.ok file
      rw [hsort, makeParts_flatten]
    · show _ = _
      rw [hsort]
    · exact fun p hp => (makeParts_mem_length hp).1
    · exact fun p hp => (makeParts_mem_length hp).2

/-- C2 witness: a 5 MB + 2 byte file whose two parts complete in reverse
submission order still commits exactly the input bytes. -/
theorem uploadFileToB2_commits_file_witness :
    (uploadFileToB2 (List.replicate (5 * 1024 * 1024 + 2) 0) "u/a.bin" "text/plain"
        (makeParts (List.replicate (5 * 1024 * 1024 + 2) 0)).reverse
        (fun _ => true)).result
      = .ok (List.replicate (5 * 1024 * 1024 + 2) 0) :=
  (uploadFileToB2_commits_file (List.replicate (5 * 1024 * 1024 + 2) 0) "u/a.bin"
    "text/plain" (makeParts (List.replicate (5 * 1024 * 1024 + 2) 0)).reverse
    (List.reverse_perm _)).1

/-- The two parts of the 5 MB + 1 byte all-zero file. -/
theorem makeParts_fiveMBplusOne :
    makeParts (List.replicate (5 * 1024 * 1024 + 1) (0:Nat))
      = [(1, ((List.replicate (5 * 1024 * 1024 + 1) (0:Nat)).drop (0 * b2PartSize)).take
              b2PartSize),
         (2, ((List.replicate (5 * 1024 * 1024 + 1) (0:Nat)).drop (1 * b2PartSize)).take
              b2PartSize)] := by
  have hlen : (List.replicate (5 * 1024 * 1024 + 1) (0:Nat)).length = 5 * 1024 * 1024 + 1 :=
    List.length_replicate _ _
  have hcount : b2PartCount (5 * 1024 * 1024 + 1) = 2 := by
    norm_num [b2PartCount, b2PartSize]
  rw [makeParts, hlen, hcount]
  rfl

/-- The 5 MB + 1 byte file is above the single-shot threshold. -/
theorem fiveMBplusOne_large :
    ¬ (List.replicate (5 * 1024 * 1024 + 1) (0:Nat)).length ≤ singleShotThreshold := by
  rw [List.length_replicate]
  norm_num [singleShotThreshold]

/-- With the second part upload failing, not all parts succeed. -/
theorem fiveMBplusOne_part2_fails :
    ((makeParts (List.replicate (5 * 1024 * 1024 + 1) (0:Nat))).all
      fun p => (fun n => n != 2) p.1) = false := by
  rw [makeParts_fiveMBplusOne]
  rfl

/-- C4 counterexample: a 5 MB + 1 byte file split into two parts whose
second part upload fails: the whole operation fails, but the action trace
contains no AbortMultipartUpload — uploadFileToB2 never attempts to abort
the transaction, against the claim that the abort is attempted. -/
theorem multipart_failure_without_abort_cex :
    (uploadFileToB2 (List.replicate (5 * 1024 * 1024 + 1) 0) "k" "ct" []
        (fun n => n != 2)).result = .error ()
    ∧ B2Action.abortMultipart "k" ∉
        (uploadFileToB2 (List.replicate (5 * 1024 * 1024 + 1) 0) "k" "ct" []
          (fun n => n != 2)).actions := by
  have h := uploadFileToB2_multipart_failure (List.replicate (5 * 1024 * 1024 + 1) 0)
    "k" "ct" [] (fun n => n != 2) fiveMBplusOne_large fiveMBplusOne_part2_fails
  rw [h]
  refine ⟨rfl, ?_⟩
  rw [makeParts_fiveMBplusOne]
  intro hmem
  rcases List.mem_cons.mp hmem with h1 | h1
  · exact B2Action.noConfusion h1
  · rw [List.map_cons, List.map_cons, List.map_nil] at h1
    rcases List.mem_cons.mp h1 with h2 | h2
    · exact B2Action.noConfusion h2
    · rcases List.mem_cons.mp h2 with h3 | h3
      · exact B2Action.noConfusion h3
      · cases h3

/-- C4 (amended): when some part upload of a multipart transaction fails,
the whole operation fails — the rejected part rejects the awaited
Promise.all, the error is rethrown, and partial success is never reported
as success — but no abort of the multipart transaction is ever attempted:
the run emits no AbortMultipartUpload command. -/
theorem multipart_part_failure_no_abort (file : Bytes) (key contentType : String)
    (arrival : List (Nat × Bytes)) (partOk : Nat → Bool)
    (hlarge : singleShotThreshold < file.length)
    (hfail : ((makeParts file).all fun p => partOk p.1) = false) :
    (uploadFileToB2 file key contentType arrival partOk).result = .error ()
    ∧ ∀ k, B2Action.abortMultipart k
        ∉ (uploadFileToB2 file key contentType arrival partOk).actions := by
  rw [uploadFileToB2_multipart_failure file key contentType arrival partOk
    (not_le.mpr hlarge) hfail]
  refine ⟨rfl, fun k => ?_⟩
  simp

/-- C4 witness: the amended theorem applied to the failing two-part
upload. -/
theorem multipart_part_failure_no_abort_witness :
    (uploadFileToB2 (List.replicate (5 * 1024 * 1024 + 1) 0) "w" "ct" []
        (fun n => n != 2)).result = .error ()
    ∧ ∀ k, B2Action.abortMultipart k
        ∉ (uploadFileToB2 (List.replicate (5 * 1024 * 1024 + 1) 0) "w" "ct" []
            (fun n => n != 2)).actions :=
  multipart_part_failure_no_abort (List.replicate (5 * 1024 * 1024 + 1) 0) "w" "ct" []
    (fun n => n != 2)
    (by rw [List.length_replicate]; norm_num [singleShotThreshold])
    fiveMBplusOne_part2_fails

/-- C6: complete on a session id absent from the registry (unknown or
reaped) answers SessionNotFound, issues no backend call, and leaves the
whole server state unchanged. -/
theorem complete_unknown_session (st : ServerState) (uploadId tempName : String) (b2ok : Bool)
    (h : alookup uploadId st.activeUploads = none) :
    uploadComplete st uploadId tempName b2ok
      = ⟨st, .error .SessionNotFound, none⟩ := by
  unfold uploadComplete
  rw [h]

/-- C6 witness: completing against an empty registry. -/
theorem complete_unknown_session_witness :
    uploadComplete ⟨[], [], []⟩ "nosuch" "t" true
      = ⟨⟨[], [], []⟩, .error .SessionNotFound, none⟩ :=
  complete_unknown_session ⟨[], [], []⟩ "nosuch" "t" true rfl

/-- C7: attaching a chunk twice for the same index of a live session gives
exactly the state of a single attach of the second payload — the chunks map
holds the second write for that index, the chunk file (whose deterministic
name is reused) holds the second payload, and a subsequent assembly
therefore reflects only the last write for that index. -/
theorem chunk_attach_last_write_wins (st : ServerState) (uploadId : String) (i : Nat)
    (p₁ p₂ : Bytes) (info : UploadInfo)
    (hs : alookup uploadId st.activeUploads = some info) :
    (uploadChunk (uploadChunk st uploadId i p₁).1 uploadId i p₂).1
      = (uploadChunk st uploadId i p₂).1
    ∧ ∃ info₂,
        alookup uploadId
            ((uploadChunk (uploadChunk st uploadId i p₁).1 uploadId i p₂).1).activeUploads
          = some info₂
        ∧ alookup i info₂.chunks = some ⟨FsPath.chunk uploadId i, p₂.length⟩
        ∧ alookup (FsPath.chunk uploadId i)
            ((uploadChunk (uploadChunk st uploadId i p₁).1 uploadId i p₂).1).files
          = some p₂ := by
  have h1 : (uploadChunk st uploadId i p₁).1
      = { st with
          files := aset (FsPath.chunk uploadId i) p₁ st.files,
          activeUploads := aset uploadId
            { info with chunks := aset i ⟨FsPath.chunk uploadId i, p₁.length⟩ info.chunks }
            st.activeUploads } := by
    simp [uploadChunk, hs]
  have h1lk : alookup uploadId (uploadChunk st uploadId i p₁).1.activeUploads
      = some { info with chunks := aset i ⟨FsPath.chunk uploadId i, p₁.length⟩ info.chunks } := by
    rw [h1]
    exact alookup_aset_self _ _ _
  have h2 : (uploadChunk (uploadChunk st uploadId i p₁).1 uploadId i p₂).1
      = { st with
          files := aset (FsPath.chunk uploadId i) p₂
            (aset (FsPath.chunk uploadId i) p₁ st.files),
          activeUploads := aset uploadId
            { info with
                chunks := aset i ⟨FsPath.chunk uploadId i, p₂.length⟩
                  (aset i ⟨FsPath.chunk uploadId i, p₁.length⟩ info.chunks) }
            (aset uploadId
              { info with chunks := aset i ⟨FsPath.chunk uploadId i, p₁.length⟩ info.chunks }
              st.activeUploads) } := by
    rw [h1]
    simp [uploadChunk, alookup_aset_self]
  have h3 : (uploadChunk st uploadId i p₂).1
      = { st with
          files := aset (FsPath.chunk uploadId i) p₂ st.files,
          activeUploads := aset uploadId
            { info with chunks := aset i ⟨FsPath.chunk uploadId i, p₂.length⟩ info.chunks }
            st.activeUploads } := by
    simp [uploadChunk, hs]
  have hmain : (uploadChunk (uploadChunk st uploadId i p₁).1 uploadId i p₂).1
      = (uploadChunk st uploadId i p₂).1 := by
    rw [h2, h3]
    simp [aset_aset_same]
  refine ⟨hmain,
    { info with chunks := aset i ⟨FsPath.chunk uploadId i, p₂.length⟩ info.chunks },
    ?_, ?_, ?_⟩
  · rw [hmain, h3]
    exact alookup_aset_self _ _ _
  · exact alookup_aset_self _ _ _
  · rw [hmain, h3]
    exact alookup_aset_self _ _ _

/-- Concrete session state for the C7 witness. -/
def c7Info : UploadInfo :=
  { fileName := "r.bin", originalFileName := "a.bin", userId := "u", fileSize := 3,
    contentType := none, chunks := [], createdAt := 0 }

/-- Concrete server state for the C7 witness. -/
def c7State : ServerState := ⟨[("s", c7Info)], [], []⟩

/-- C7 witness: re-sending chunk 0 of a live session. -/
theorem chunk_attach_last_write_wins_witness :
    (uploadChunk (uploadChunk c7State "s" 0 [1]).1 "s" 0 [2, 3]).1
      = (uploadChunk c7State "s" 0 [2, 3]).1
    ∧ ∃ info₂,
        alookup "s" ((uploadChunk (uploadChunk c7State "s" 0 [1]).1 "s" 0 [2, 3]).1).activeUploads
          = some info₂
        ∧ alookup 0 info₂.chunks = some ⟨FsPath.chunk "s" 0, [2, 3].length⟩
        ∧ alookup (FsPath.chunk "s" 0)
            ((uploadChunk (uploadChunk c7State "s" 0 [1]).1 "s" 0 [2, 3]).1).files
          = some [2, 3] :=
  chunk_attach_last_write_wins c7State "s" 0 [1] [2, 3] c7Info rfl

/-- C5: when complete fails — session missing, a chunk read failing during
assembly, or the backend upload failing — the registry is left unchanged
(the session is not removed), the remote store is unchanged, and the
uploads directory is unchanged except possibly at the temporary combined
file, so none of the session's chunk payloads are deleted; chunk payloads
and the session entry are released only by the success path, so a client
can retry complete without re-uploading chunks. -/
theorem complete_failure_retains_session (st : ServerState) (uploadId tempName : String)
    (b2ok : Bool)
    (hfail : (uploadComplete st uploadId tempName b2ok).response.isOk = false) :
    (uploadComplete st uploadId tempName b2ok).state.activeUploads = st.activeUploads
    ∧ (∀ p : FsPath, p ≠ FsPath.temp tempName →
        alookup p (uploadComplete st uploadId tempName b2ok).state.files = alookup p st.files)
    ∧ (uploadComplete st uploadId tempName b2ok).state.store = st.store := by
  rcases hlk : alookup uploadId st.activeUploads with _ | info
  · have heq : uploadComplete st uploadId tempName b2ok
        = ⟨st, .error .SessionNotFound, none⟩ := by
      simp only [uploadComplete, hlk]
    rw [heq]
    exact ⟨rfl, fun p _ => rfl, rfl⟩
  · rcases hread : readChunksFrom st.files (sortByKey info.chunks) with _ | datas
    · have heq : uploadComplete st uploadId tempName b2ok
          = ⟨{ st with
                files := aset (FsPath.temp tempName)
                  (readCombined st.files (sortByKey info.chunks)) st.files },
             .error .AssemblyIOError, none⟩ := by
        simp only [uploadComplete, hlk, hread]
      rw [heq]
      exact ⟨rfl, fun p hp => alookup_aset_ne hp _ _, rfl⟩
    · cases b2ok with
      | false =>
        have heq : uploadComplete st uploadId tempName false
            = ⟨{ st with files := aset (FsPath.temp tempName) datas.flatten st.files },
               .error .BackendUploadFailed,
               some ⟨info.userId ++ "/" ++ info.fileName,
                 info.contentType.getD "application/octet-stream", datas.flatten⟩⟩ := by
          simp only [uploadComplete, hlk, hread, Bool.false_eq_true, if_false]
        rw [heq]
        exact ⟨rfl, fun p hp => alookup_aset_ne hp _ _, rfl⟩
      | true =>
        exfalso
        have hok : (uploadComplete st uploadId tempName true).response
            = .ok ⟨info.userId, info.originalFileName, info.fileName,
                info.userId ++ "/" ++ info.fileName, datas.flatten.length⟩ := by
          simp only [uploadComplete, hlk, hread, if_true]
        rw [hok] at hfail
        exact Bool.noConfusion hfail

/-- Concrete session state for the C5 witness. -/
def c5Info : UploadInfo :=
  { fileName := "r.bin", originalFileName := "a.bin", userId := "u", fileSize := 1,
    contentType := none, chunks := [(0, ⟨FsPath.chunk "s" 0, 1⟩)], createdAt := 0 }

/-- Concrete server state for the C5 witness. -/
def c5State : ServerState := ⟨[("s", c5Info)], [(FsPath.chunk "s" 0, [7])], []⟩

/-- C5 witness: a backend failure leaves the session, its chunk file, and
the store untouched. -/
theorem complete_failure_retains_session_witness :
    (uploadComplete c5State "s" "t" false).state.activeUploads = c5State.activeUploads
    ∧ (∀ p : FsPath, p ≠ FsPath.temp "t" →
        alookup p (uploadComplete c5State "s" "t" false).state.files = alookup p c5State.files)
    ∧ (uploadComplete c5State "s" "t" false).state.store = c5State.store :=
  complete_failure_retains_session c5State "s" "t" false (by decide)

/-- C8 counterexample: against a store where every probed key exists, the
suffix loop of POST /upload has made 100 probes for u/a.bin and is still
running; it has reported nothing — in particular no ResolutionExhausted,
the loop has no such report and no retry bound. -/
theorem resolver_unbounded_cex :
    resolveFilename (fun _ => ProbeResult.found) "u" "a.bin" 100 = none :=
  resolveAux_found_none "u" "a.bin" 100 "a.bin" 1

/-- C8 (amended): the suffix-probe loop is an unbounded while(true): it has
no maximum retry count and never reports ResolutionExhausted; when every
probe reports that the key exists it never terminates (after any number of
probes it is still running), and it terminates only when some probe returns
NotFound or another error. -/
theorem resolver_allFound_never_terminates (userId randomFilename : String) (fuel : Nat) :
    resolveFilename (fun _ => ProbeResult.found) userId randomFilename fuel = none :=
  resolveAux_found_none userId randomFilename fuel randomFilename 1

/-- A successful init inserts exactly one fresh session: the randomized
stored name, the original name, the user, the advisory declared size, no
content type, an empty chunks map, and the creation time. -/
theorem uploadInit_ok_state (st st0 : ServerState) (fileName : String) (fileSize : Nat)
    (userId uploadId finalFileName : String) (now : Nat)
    (hinit : uploadInit st fileName fileSize userId uploadId finalFileName now
      = .ok (st0, uploadId, finalFileName)) :
    st0 = { st with
        activeUploads := aset uploadId (initSession fileName fileSize userId finalFileName now)
          st.activeUploads } := by
  rw [uploadInit] at hinit
  split at hinit
  · exact Except.noConfusion hinit
  · rw [Except.ok.injEq, Prod.mk.injEq] at hinit
    exact hinit.1.symm

/-- C1: for a session created by init and fed chunk-attach calls with
pairwise distinct indices in any arrival order, complete hands the backend
exactly the concatenation of the attached payloads in ascending chunk-index
order.  The indices are arbitrary (gaps are assembled as-is) and the
declared fileSize is arbitrary (it is never validated): the assembled
stream is the same for every declaredSize and for every permutation
evsArr of the attach events evs. -/
theorem complete_assembles_in_index_order
    (st st0 : ServerState) (fileName : String) (fileSize : Nat)
    (userId uploadId finalFileName tempName : String) (now : Nat) (b2ok : Bool)
    (evs evsArr : List (Nat × Bytes))
    (hinit : uploadInit st fileName fileSize userId uploadId finalFileName now
      = .ok (st0, uploadId, finalFileName))
    (hnodup : (evs.map Prod.fst).Nodup)
    (hperm : evsArr.Perm evs) :
    ((uploadComplete (attachMany st0 uploadId evsArr) uploadId tempName b2ok).backendCall.map
        BackendCall.body)
      = some (((sortByKey evs).map Prod.snd).flatten) := by
  have hst0 := uploadInit_ok_state st st0 fileName fileSize userId uploadId finalFileName now
    hinit
  have hs0 : alookup uploadId st0.activeUploads
      = some (initSession fileName fileSize userId finalFileName now) := by
    rw [hst0]
    exact alookup_aset_self _ _ _
  have hndArr : (evsArr.map Prod.fst).Nodup := (hperm.map Prod.fst).nodup_iff.mpr hnodup
  obtain ⟨hreg, hfiles, hstore⟩ := attachMany_spec uploadId evsArr st0 _ hs0
  have hchunks : evsArr.foldl
      (fun m e => aset e.1 (⟨FsPath.chunk uploadId e.1, e.2.length⟩ : ChunkInfo) m) []
      = evsArr.map
          (fun e => (e.1, (⟨FsPath.chunk uploadId e.1, e.2.length⟩ : ChunkInfo))) := by
    have h := foldl_aset_append (γ := ChunkInfo)
      (fun e => ⟨FsPath.chunk uploadId e.1, e.2.length⟩) evsArr []
      (fun e _ q hq => absurd hq (List.not_mem_nil q)) hndArr
    simpa using h
  have hproj : (initSession fileName fileSize userId finalFileName now).chunks
      = ([] : List (Nat × ChunkInfo)) := rfl
  rw [hproj, hchunks] at hreg
  have hfread : ∀ e ∈ evsArr, alookup (FsPath.chunk uploadId e.1)
      (attachMany st0 uploadId evsArr).files = some e.2 := by
    intro e he
    rw [hfiles]
    exact alookup_foldl_files uploadId evsArr st0.files e.1 e.2 (by simpa using he) hndArr
  have hreadF : readChunksFrom (attachMany st0 uploadId evsArr).files
      (sortByKey (evsArr.map
        (fun e => (e.1, (⟨FsPath.chunk uploadId e.1, e.2.length⟩ : ChunkInfo)))))
      = some ((sortByKey evsArr).map Prod.snd) := by
    rw [sortByKey_map (fun e => (⟨FsPath.chunk uploadId e.1, e.2.length⟩ : ChunkInfo)) evsArr]
    apply readChunksFrom_map
    intro e he
    exact hfread e ((sortByKey_perm evsArr).mem_iff.mp he)
  have hout : (uploadComplete (attachMany st0 uploadId evsArr) uploadId tempName
        b2ok).backendCall
      = some ⟨userId ++ "/" ++ finalFileName, "application/octet-stream",
          ((sortByKey evsArr).map Prod.snd).flatten⟩ := by
    cases b2ok with
    | true => simp only [uploadComplete, hreg, hreadF, if_true, initSession, Option.getD_none]
    | false =>
      simp only [uploadComplete, hreg, hreadF, Bool.false_eq_true, if_false, initSession,
        Option.getD_none]
  rw [hout, sortByKey_congr_perm hperm hnodup]
  rfl

/-- Concrete post-init server state for the C1 witness. -/
def c1State : ServerState :=
  ⟨[("sid", initSession "a.bin" 4 "u" "r.bin" 0)], [], []⟩

/-- The init call that produces the C1 witness state. -/
theorem c1State_init :
    uploadInit ⟨[], [], []⟩ "a.bin" 4 "u" "sid" "r.bin" 0 = .ok (c1State, "sid", "r.bin") := by
  rw [uploadInit, if_neg (by decide)]
  rfl

/-- C1 witness: chunks 1 and 0 attached in reverse order assemble as
chunk 0 then chunk 1. -/
theorem complete_assembles_in_index_order_witness :
    ((uploadComplete (attachMany c1State "sid" [(1, [5, 6]), (0, [1, 2])]) "sid" "t"
        true).backendCall.map BackendCall.body)
      = some [1, 2, 5, 6] := by
  have h := complete_assembles_in_index_order ⟨[], [], []⟩ c1State "a.bin" 4 "u" "sid"
    "r.bin" "t" 0 true [(0, [1, 2]), (1, [5, 6])] [(1, [5, 6]), (0, [1, 2])] c1State_init
    (by decide) (by decide)
  rw [h]
  rfl

/-- The backend call of a successful complete carries the default binary
content type whenever the session has no recorded contentType. -/
theorem uploadComplete_backendCall_contentType (st : ServerState)
    (uploadId tempName : String) (b2ok : Bool) (info : UploadInfo)
    (hs : alookup uploadId st.activeUploads = some info) (hct : info.contentType = none) :
    ∀ bc ∈ (uploadComplete st uploadId tempName b2ok).backendCall,
      bc.contentType = "application/octet-stream" := by
  intro bc hbc
  rcases hread : readChunksFrom st.files (sortByKey info.chunks) with _ | datas
  · have hnone : (uploadComplete st uploadId tempName b2ok).backendCall = none := by
      simp only [uploadComplete, hs, hread]
    rw [hnone] at hbc
    cases hbc
  · have hsome : (uploadComplete st uploadId tempName b2ok).backendCall
        = some ⟨info.userId ++ "/" ++ info.fileName,
            info.contentType.getD "application/octet-stream", datas.flatten⟩ := by
      cases b2ok with
      | true => simp only [uploadComplete, hs, hread, if_true]
      | false => simp only [uploadComplete, hs, hread, Bool.false_eq_true, if_false]
    rw [hsome] at hbc
    have hbc' : bc = ⟨info.userId ++ "/" ++ info.fileName,
        info.contentType.getD "application/octet-stream", datas.flatten⟩ := by
      simpa [eq_comm] using hbc
    rw [hbc', hct]
    rfl

/-- C10: init records no content type on the session, and complete commits
with content type application/octet-stream — the fallback for the absent
field — regardless of the actual MIME type of the uploaded file, for every
chunked upload driven through init, any chunk sequence, and complete. -/
theorem complete_contentType_defaults_octetStream
    (st st0 : ServerState) (fileName : String) (fileSize : Nat)
    (userId uploadId finalFileName tempName : String) (now : Nat) (b2ok : Bool)
    (evs : List (Nat × Bytes))
    (hinit : uploadInit st fileName fileSize userId uploadId finalFileName now
      = .ok (st0, uploadId, finalFileName)) :
    (∃ info0, alookup uploadId st0.activeUploads = some info0 ∧ info0.contentType = none)
    ∧ ∀ bc ∈ (uploadComplete (attachMany st0 uploadId evs) uploadId tempName b2ok).backendCall,
        bc.contentType = "application/octet-stream" := by
  have hst0 := uploadInit_ok_state st st0 fileName fileSize userId uploadId finalFileName now
    hinit
  have hs0 : alookup uploadId st0.activeUploads
      = some (initSession fileName fileSize userId finalFileName now) := by
    rw [hst0]
    exact alookup_aset_self _ _ _
  obtain ⟨hreg, -, -⟩ := attachMany_spec uploadId evs st0 _ hs0
  exact ⟨⟨_, hs0, rfl⟩,
    uploadComplete_backendCall_contentType _ uploadId tempName b2ok _ hreg rfl⟩

/-- Concrete post-init server state for the C10 witness. -/
def c10State : ServerState :=
  ⟨[("sid", initSession "a.png" 1 "u" "r.png" 0)], [], []⟩

/-- The init call that produces the C10 witness state. -/
theorem c10State_init :
    uploadInit ⟨[], [], []⟩ "a.png" 1 "u" "sid" "r.png" 0 = .ok (c10State, "sid", "r.png") := by
  rw [uploadInit, if_neg (by decide)]
  rfl

/-- C10 witness: a completed one-chunk PNG upload still goes out as
application/octet-stream. -/
theorem complete_contentType_defaults_octetStream_witness :
    (∃ info0, alookup "sid" c10State.activeUploads = some info0 ∧ info0.contentType = none)
    ∧ ∀ bc ∈ (uploadComplete (attachMany c10State "sid" [(0, [9])]) "sid" "t"
          true).backendCall,
        bc.contentType = "application/octet-stream" :=
  complete_contentType_defaults_octetStream ⟨[], [], []⟩ c10State "a.png" 1 "u" "sid"
    "r.png" "t" 0 true [(0, [9])] c10State_init

/-- Session of the C3 counterexample: its resolved stored filename a.bin
collides with an object already committed at u/a.bin. -/
def c3Info : UploadInfo :=
  { fileName := "a.bin", originalFileName := "orig.bin", userId := "u", fileSize := 1,
    contentType := none, chunks := [(0, ⟨FsPath.chunk "sid" 0, 1⟩)], createdAt := 0 }

/-- Server state of the C3 counterexample: the chunk payload [9] is on disk
and the bucket already holds [1, 2, 3] at u/a.bin. -/
def c3State : ServerState :=
  ⟨[("sid", c3Info)], [(FsPath.chunk "sid" 0, [9])], [("u/a.bin", [1, 2, 3])]⟩

/-- C3 counterexample: complete issues no existence probe and no Key
Resolver: it commits straight to u/a.bin, and the object previously
committed there is silently replaced by the new upload instead of a
distinct key being chosen. -/
theorem complete_overwrites_committed_key_cex :
    alookup "u/a.bin" c3State.store = some [1, 2, 3]
    ∧ alookup "u/a.bin" (uploadComplete c3State "sid" "t" true).state.store = some [9] := by
  exact ⟨rfl, rfl⟩

/-- C3 (amended): complete performs no key resolution and no existence
probe before uploading: it commits the assembled bytes to the literal key
{userId}/{storedFileName} (the random name fixed at init), and the put
replaces whatever object was previously committed at that key — collision
avoidance rests solely on the randomness of the stored filename chosen at
init, not on any probe at completion time. -/
theorem complete_uses_direct_key (st : ServerState) (uploadId tempName : String)
    (info : UploadInfo) (datas : List Bytes)
    (hs : alookup uploadId st.activeUploads = some info)
    (hread : readChunksFrom st.files (sortByKey info.chunks) = some datas) :
    (uploadComplete st uploadId tempName true).backendCall
      = some ⟨info.userId ++ "/" ++ info.fileName,
          info.contentType.getD "application/octet-stream", datas.flatten⟩
    ∧ (uploadComplete st uploadId tempName true).state.store
      = aset (info.userId ++ "/" ++ info.fileName) datas.flatten st.store
    ∧ alookup (info.userId ++ "/" ++ info.fileName)
        (uploadComplete st uploadId tempName true).state.store = some datas.flatten := by
  have hcall : (uploadComplete st uploadId tempName true).backendCall
      = some ⟨info.userId ++ "/" ++ info.fileName,
          info.contentType.getD "application/octet-stream", datas.flatten⟩ := by
    simp only [uploadComplete, hs, hread, if_true]
  have hstore : (uploadComplete st uploadId tempName true).state.store
      = aset (info.userId ++ "/" ++ info.fileName) datas.flatten st.store := by
    simp only [uploadComplete, hs, hread, if_true]
  refine ⟨hcall, hstore, ?_⟩
  rw [hstore]
  exact alookup_aset_self _ _ _

/-- C3 witness (amended theorem): the colliding state commits [9] at the
direct key u/a.bin. -/
theorem complete_uses_direct_key_witness :
    (uploadComplete c3State "sid" "t" true).backendCall
      = some ⟨c3Info.userId ++ "/" ++ c3Info.fileName,
          c3Info.contentType.getD "application/octet-stream", ([[9]] : List Bytes).flatten⟩
    ∧ (uploadComplete c3State "sid" "t" true).state.store
      = aset (c3Info.userId ++ "/" ++ c3Info.fileName) ([[9]] : List Bytes).flatten
          c3State.store
    ∧ alookup (c3Info.userId ++ "/" ++ c3Info.fileName)
        (uploadComplete c3State "sid" "t" true).state.store
      = some ([[9]] : List Bytes).flatten :=
  complete_uses_direct_key c3State "sid" "t" c3Info [[9]] rfl rfl

/-- C9: a Reaper run over a registry holding a session whose age exceeds
uploadSessionTimeout unlinks that session's chunk payloads (best effort:
chunks whose unlink fails are skipped and the sweep continues) and removes
the session; a subsequent chunk or complete call with that session id then
fails with SessionNotFound. -/
theorem reaper_removes_expired_session (st : ServerState) (now : Nat)
    (unlinkOk : FsPath → Bool) (uid : String) (info : UploadInfo)
    (hmem : (uid, info) ∈ st.activeUploads)
    (hexp : uploadSessionTimeout < now - info.createdAt) :
    alookup uid (cleanupOrphanedChunks st now unlinkOk).activeUploads = none
    ∧ (∀ c ∈ info.chunks, unlinkOk c.2.path = true →
        alookup c.2.path (cleanupOrphanedChunks st now unlinkOk).files = none)
    ∧ (∀ (i : Nat) (payload : Bytes),
        (uploadChunk (cleanupOrphanedChunks st now unlinkOk) uid i payload).2
          = .error .SessionNotFound)
    ∧ (∀ (tempName : String) (b2ok : Bool),
        (uploadComplete (cleanupOrphanedChunks st now unlinkOk) uid tempName b2ok).response
          = .error .SessionNotFound) := by
  obtain ⟨l₁, l₂, hsplit⟩ := List.append_of_mem hmem
  have hfold : cleanupOrphanedChunks st now unlinkOk
      = l₂.foldl (reapSession unlinkOk now)
          (reapSession unlinkOk now (l₁.foldl (reapSession unlinkOk now) st) (uid, info)) := by
    rw [cleanupOrphanedChunks, hsplit, List.foldl_append, List.foldl_cons]
  have hmideq : reapSession unlinkOk now (l₁.foldl (reapSession unlinkOk now) st) (uid, info)
      = { l₁.foldl (reapSession unlinkOk now) st with
          files := info.chunks.foldl
            (fun fs c => if unlinkOk c.2.path then aerase c.2.path fs else fs)
            (l₁.foldl (reapSession unlinkOk now) st).files,
          activeUploads := aerase uid
            (l₁.foldl (reapSession unlinkOk now) st).activeUploads } := by
    rw [reapSession, if_pos hexp]
  have hreg : alookup uid (cleanupOrphanedChunks st now unlinkOk).activeUploads = none := by
    rw [hfold]
    apply foldl_reap_reg_none
    rw [hmideq]
    exact alookup_aerase_self _ _
  have hfiles : ∀ c ∈ info.chunks, unlinkOk c.2.path = true →
      alookup c.2.path (cleanupOrphanedChunks st now unlinkOk).files = none := by
    intro c hc hok
    rw [hfold]
    apply foldl_reap_files_none
    rw [hmideq]
    exact alookup_chunkfold_erased unlinkOk info.chunks _ c hc hok
  refine ⟨hreg, hfiles, ?_, ?_⟩
  · intro i payload
    simp only [uploadChunk, hreg]
  · intro tempName b2ok
    simp only [uploadComplete, hreg]

/-- Expired session of the C9 witness: created at time 0 with one chunk. -/
def c9Info : UploadInfo :=
  { fileName := "r.bin", originalFileName := "a.bin", userId := "u", fileSize := 1,
    contentType := none, chunks := [(0, ⟨FsPath.chunk "old" 0, 1⟩)], createdAt := 0 }

/-- Server state of the C9 witness. -/
def c9State : ServerState :=
  ⟨[("old", c9Info)], [(FsPath.chunk "old" 0, [5])], []⟩

/-- C9 witness: one millisecond past the 24 hour timeout the Reaper drops
the session and its chunk file, and both endpoints answer
SessionNotFound. -/
theorem reaper_removes_expired_session_witness :
    alookup "old" (cleanupOrphanedChunks c9State 86400001 (fun _ => true)).activeUploads
      = none
    ∧ (∀ c ∈ c9Info.chunks, (fun _ : FsPath => true) c.2.path = true →
        alookup c.2.path (cleanupOrphanedChunks c9State 86400001 (fun _ => true)).files
          = none)
    ∧ (∀ (i : Nat) (payload : Bytes),
        (uploadChunk (cleanupOrphanedChunks c9State 86400001 (fun _ => true)) "old" i
            payload).2
          = .error .SessionNotFound)
    ∧ (∀ (tempName : String) (b2ok : Bool),
        (uploadComplete (cleanupOrphanedChunks c9State 86400001 (fun _ => true)) "old"
            tempName b2ok).response
          = .error .SessionNotFound) :=
  reaper_removes_expired_session c9State 86400001 (fun _ => true) "old" c9Info
    (List.mem_cons_self _ _) (by decide)

end Claims

end IstartX
